import Mathlib

/-!
Shallow embedding of `rev_slice` (`src/lib.rs`)

`RevSlice<T>` is a `#[repr(transparent)]` newtype over `[T]` providing a
reversed view of a slice.  We model the underlying slice `self.0` as a
`List T` in *physical* order; every operation below is translated from the
corresponding Rust item.  Fallible operations (slice indexing, `usize`
subtraction, which panic in Rust) return `Option`.
-/

/-- Rust `usize` subtraction `a - b`: fails (panics) when `b > a`. -/
def usizeSub (a b : Nat) : Option Nat :=
  if b ≤ a then some (a - b) else none

/-- Rust `struct RevSlice<T>([T])`: the field `phys` is the inner slice `self.0`
in physical (un-reversed) order. -/
structure RevSlice (T : Type) where
  phys : List T
deriving DecidableEq, Repr

/-- The extension method `<[T] as SliceExt>::rev` (and `rev_mut`): the transmute of a slice
reference into the transparent newtype — the backing list is unchanged. -/
def SliceExt.rev {T : Type} (s : List T) : RevSlice T :=
  ⟨s⟩

/-- Method `RevSlice::rev` (and `rev_mut`): returns `&self.0`, the original slice. -/
def RevSlice.rev {T : Type} (r : RevSlice T) : List T :=
  r.phys

/-- Method `RevSlice::len`: `self.0.len()`. -/
def RevSlice.len {T : Type} (r : RevSlice T) : Nat :=
  r.phys.length

/-- Method `RevSlice::is_empty`: `self.0.is_empty()`. -/
def RevSlice.is_empty {T : Type} (r : RevSlice T) : Bool :=
  r.phys.isEmpty

/-- Method `RevSlice::flip_index`: `self.len() - (index+1)` with `usize` arithmetic. -/
def RevSlice.flip_index {T : Type} (r : RevSlice T) (index : Nat) : Option Nat :=
  usizeSub r.len (index + 1)

/-- Method `RevSlice::flip_fencepost`: `self.len() - index` with `usize` arithmetic. -/
def RevSlice.flip_fencepost {T : Type} (r : RevSlice T) (index : Nat) : Option Nat :=
  usizeSub r.len index

/-- Method `RevSlice::flip_range`: `self.flip_fencepost(range.end)..self.flip_fencepost(range.start)`. -/
def RevSlice.flip_range {T : Type} (r : RevSlice T) (start stop : Nat) : Option (Nat × Nat) :=
  match r.flip_fencepost stop, r.flip_fencepost start with
  | some a, some b => some (a, b)
  | _, _ => none

/-- Rust slice range indexing `s[a..b]`: fails unless `a <= b <= s.len()`;
otherwise yields the contiguous sub-slice. -/
def sliceIndexRange {T : Type} (s : List T) (a b : Nat) : Option (List T) :=
  if a ≤ b ∧ b ≤ s.length then some ((s.drop a).take (b - a)) else none

/-- Trait impl `Index<usize> for RevSlice`: `&self.0[self.flip_index(index)]`
(`IndexMut` reads the same element). -/
def RevSlice.index {T : Type} (r : RevSlice T) (i : Nat) : Option T :=
  match r.flip_index i with
  | some ri => r.phys[ri]?
  | none => none

/-- Writing `v` through `impl IndexMut<usize> for RevSlice`:
`self.0[self.flip_index(index)] = v`. -/
def RevSlice.writeAt {T : Type} (r : RevSlice T) (i : Nat) (v : T) : Option (RevSlice T) :=
  match r.flip_index i with
  | some ri => if ri < r.phys.length then some ⟨r.phys.set ri v⟩ else none
  | none => none

/-- Trait impl `Index<Range<usize>> for RevSlice` (and `IndexMut`):
`self.0[self.flip_range(index)].rev()`. -/
def RevSlice.indexRange {T : Type} (r : RevSlice T) (start stop : Nat) : Option (RevSlice T) :=
  match r.flip_range start stop with
  | some (a, b) => (sliceIndexRange r.phys a b).map RevSlice.mk
  | none => none

/-- Method `RevSlice::split_at` (and `split_at_mut`): `rmid = flip_fencepost(mid)`,
`(a, b) = self.0.split_at(rmid)`, result `(b.rev(), a.rev())`.  Slice
`split_at` fails when `rmid > len`. -/
def RevSlice.split_at {T : Type} (r : RevSlice T) (mid : Nat) :
    Option (RevSlice T × RevSlice T) :=
  match r.flip_fencepost mid with
  | some rmid =>
      if rmid ≤ r.phys.length then
        some (⟨r.phys.drop rmid⟩, ⟨r.phys.take rmid⟩)
      else none
  | none => none

/-- Method `RevSlice::split_first` (and `_mut`): `self.0.split_last()` re-wrapped;
slice `split_last` yields the last element and the initial segment. -/
def RevSlice.split_first {T : Type} (r : RevSlice T) : Option (T × RevSlice T) :=
  match r.phys.getLast? with
  | some x => some (x, ⟨r.phys.dropLast⟩)
  | none => none

/-- Method `RevSlice::split_last` (and `_mut`): `self.0.split_first()` re-wrapped;
slice `split_first` yields the head element and the tail. -/
def RevSlice.split_last {T : Type} (r : RevSlice T) : Option (T × RevSlice T) :=
  match r.phys with
  | x :: rest => some (x, ⟨rest⟩)
  | [] => none

/-- Method `RevSlice::first`: `self.0.last()`. -/
def RevSlice.first {T : Type} (r : RevSlice T) : Option T :=
  r.phys.getLast?

/-- Method `RevSlice::last`: `self.0.first()`. -/
def RevSlice.last {T : Type} (r : RevSlice T) : Option T :=
  r.phys.head?

/-- Method `RevSlice::iter` (and `iter_mut`): `self.0.iter().rev()` — the sequence
of elements an iteration yields, in logical order. -/
def RevSlice.iter {T : Type} (r : RevSlice T) : List T :=
  r.phys.reverse

/-- The logical element sequence of the view: element at logical index `i`
is the element at physical index `n - 1 - i`, i.e. the reverse of the
backing slice.  (Spec-side notion, used to state the claims.) -/
def RevSlice.logical {T : Type} (r : RevSlice T) : List T :=
  r.phys.reverse

/-- Lexicographic comparison of Rust slices, as in `impl Ord for [T]`:
elementwise from the front, a strict prefix compares less. -/
def sliceCompare {T : Type} (cmp : T → T → Ordering) : List T → List T → Ordering
  | [], [] => .eq
  | [], _ :: _ => .lt
  | _ :: _, [] => .gt
  | x :: xs, y :: ys =>
    match cmp x y with
    | .eq => sliceCompare cmp xs ys
    | o => o

/-- The `#[derive(PartialOrd, Ord)]` comparison on `RevSlice<T>`: a derive on
a single-field struct delegates to the field, i.e. compares the inner
slice `self.0` in physical order. -/
def RevSlice.cmp {T : Type} (cmp : T → T → Ordering) (r s : RevSlice T) : Ordering :=
  sliceCompare cmp r.phys s.phys

/-- The `#[derive(PartialEq, Eq)]` equality on `RevSlice<T>`: delegates to
the inner slice `self.0`, i.e. elementwise equality in physical order. -/
def RevSlice.beq {T : Type} [DecidableEq T] (r s : RevSlice T) : Bool :=
  decide (r.phys = s.phys)

/-- Sanity checks mirroring the crate's doctest and unit test. -/
theorem sanity_doctest_checks :
    (SliceExt.rev [1, 2, 4, 9, 16, 25]).index 0 = some 25 ∧
    (SliceExt.rev [1, 2, 3, 4, 5, 6, 7]).index 1 = some 6 ∧
    (SliceExt.rev [1, 2, 3, 4, 5, 6, 7]).indexRange 1 4 = some (SliceExt.rev [4, 5, 6]) ∧
    (SliceExt.rev [1, 2, 3, 4, 5, 6, 7]).split_at 3 =
      some (SliceExt.rev [5, 6, 7], SliceExt.rev [1, 2, 3, 4]) ∧
    (SliceExt.rev [1, 2, 4]).split_first = some (4, SliceExt.rev [1, 2]) ∧
    (SliceExt.rev [1, 2, 4]).split_last = some (1, SliceExt.rev [2, 4]) ∧
    (SliceExt.rev [1, 2, 3]).index 3 = none ∧
    (SliceExt.rev ([1, 2, 3] : List Nat)).writeAt 0 9 = some ⟨[1, 2, 9]⟩ := by
  decide

/-! Helper lemmas shared by the claim theorems. -/

theorem usizeSub_eq_some {a b : Nat} (h : b ≤ a) : usizeSub a b = some (a - b) := by
  simp [usizeSub, h]

theorem usizeSub_eq_none {a b : Nat} (h : a < b) : usizeSub a b = none := by
  simp only [usizeSub, if_neg (by omega : ¬ b ≤ a)]

theorem RevSlice.len_eq {T : Type} (r : RevSlice T) : r.len = r.phys.length := rfl

/-- Scalar indexing of the reversed view fails exactly on out-of-bounds
logical indices. -/
theorem RevSlice.index_eq_none_iff {T : Type} (r : RevSlice T) (i : Nat) :
    r.index i = none ↔ r.len ≤ i := by
  rcases Nat.lt_or_ge i r.len with h | h
  · rw [RevSlice.index, RevSlice.flip_index, usizeSub_eq_some (by omega : i + 1 ≤ r.len)]
    have hlt : r.len - (i + 1) < r.phys.length := by
      rw [← RevSlice.len_eq]; omega
    simp [List.getElem?_eq_getElem hlt]
    omega
  · rw [RevSlice.index, RevSlice.flip_index, usizeSub_eq_none (by omega : r.len < i + 1)]
    simp
    omega

/-- Range indexing of the reversed view fails exactly on inverted or
out-of-bounds logical ranges. -/
theorem RevSlice.indexRange_eq_none_iff {T : Type} (r : RevSlice T) (s e : Nat) :
    r.indexRange s e = none ↔ (e < s ∨ r.len < e) := by
  by_cases he : e ≤ r.len
  · by_cases hs : s ≤ r.len
    · rw [RevSlice.indexRange, RevSlice.flip_range, RevSlice.flip_fencepost,
        RevSlice.flip_fencepost, usizeSub_eq_some he, usizeSub_eq_some hs]
      simp only [sliceIndexRange, ← RevSlice.len_eq]
      by_cases hse : s ≤ e
      · rw [if_pos (by constructor <;> omega)]
        simp
        omega
      · rw [if_neg (by omega)]
        simp
        omega
    · rw [RevSlice.indexRange, RevSlice.flip_range, RevSlice.flip_fencepost,
        RevSlice.flip_fencepost, usizeSub_eq_some he, usizeSub_eq_none (by omega)]
      simp
      omega
  · rw [RevSlice.indexRange, RevSlice.flip_range, RevSlice.flip_fencepost,
      usizeSub_eq_none (by omega)]
    simp
    omega

/-- Splitting the reversed view fails exactly when the midpoint exceeds the
length. -/
theorem RevSlice.split_at_eq_none_iff {T : Type} (r : RevSlice T) (mid : Nat) :
    r.split_at mid = none ↔ r.len < mid := by
  by_cases h : mid ≤ r.len
  · have h2 : r.len - mid ≤ r.phys.length := by rw [← RevSlice.len_eq]; omega
    simp [RevSlice.split_at, RevSlice.flip_fencepost, usizeSub_eq_some h, h2]
    omega
  · simp [RevSlice.split_at, RevSlice.flip_fencepost,
      usizeSub_eq_none (show r.len < mid by omega)]
    omega

/-- C1: for every sequence `S` of length `n` and every logical index
`i < n`, indexing the reversed view at `i` returns the same element as
indexing `S` at physical index `n - 1 - i` (and that element exists). -/
theorem C1_index_mapping {T : Type} (S : List T) (i : Nat) (h : i < S.length) :
    (SliceExt.rev S).index i = S[S.length - 1 - i]? ∧
    ((SliceExt.rev S).index i).isSome := by
  have hkey : (SliceExt.rev S).index i = S[S.length - 1 - i]? := by
    rw [RevSlice.index, RevSlice.flip_index,
      usizeSub_eq_some (by simpa [RevSlice.len_eq, SliceExt.rev] using h)]
    have : RevSlice.len (SliceExt.rev S) - (i + 1) = S.length - 1 - i := by
      simp [RevSlice.len_eq, SliceExt.rev]
      omega
    rw [this]
    rfl
  refine ⟨hkey, ?_⟩
  rw [hkey, List.getElem?_eq_getElem (by omega : S.length - 1 - i < S.length)]
  rfl

/-- Witness for C1 on a concrete input. -/
theorem C1_index_mapping_witness :
    (SliceExt.rev ([1, 2, 3, 4, 5, 6, 7] : List Nat)).index 1 = [1, 2, 3, 4, 5, 6, 7][7 - 1 - 1]? ∧
    ((SliceExt.rev ([1, 2, 3, 4, 5, 6, 7] : List Nat)).index 1).isSome :=
  C1_index_mapping [1, 2, 3, 4, 5, 6, 7] 1 (by decide)

/-- C2: for `start ≤ end ≤ n`, ranged indexing of the reversed view with
`[start, end)` returns the reversed view of the physical sub-slice
`S[n-end..n-start]`, and the resulting view has length `end - start`. -/
theorem C2_range_mapping {T : Type} (S : List T) (s e : Nat)
    (hse : s ≤ e) (hen : e ≤ S.length) :
    ∃ sub : List T,
      sliceIndexRange S (S.length - e) (S.length - s) = some sub ∧
      (SliceExt.rev S).indexRange s e = some (SliceExt.rev sub) ∧
      (SliceExt.rev sub).len = e - s := by
  refine ⟨(S.drop (S.length - e)).take ((S.length - s) - (S.length - e)), ?_, ?_, ?_⟩
  · rw [sliceIndexRange, if_pos (by constructor <;> omega)]
  · rw [RevSlice.indexRange, RevSlice.flip_range, RevSlice.flip_fencepost,
      RevSlice.flip_fencepost,
      usizeSub_eq_some (show e ≤ RevSlice.len (SliceExt.rev S) from hen),
      usizeSub_eq_some (show s ≤ RevSlice.len (SliceExt.rev S) from le_trans hse hen)]
    show (sliceIndexRange S (S.length - e) (S.length - s)).map RevSlice.mk = _
    rw [sliceIndexRange, if_pos (by constructor <;> omega)]
    rfl
  · simp [RevSlice.len_eq, SliceExt.rev, List.length_take, List.length_drop]
    omega

/-- Witness for C2 on a concrete input. -/
theorem C2_range_mapping_witness :
    ∃ sub : List Nat,
      sliceIndexRange [1, 2, 3, 4, 5, 6, 7] (7 - 4) (7 - 1) = some sub ∧
      (SliceExt.rev ([1, 2, 3, 4, 5, 6, 7] : List Nat)).indexRange 1 4 = some (SliceExt.rev sub) ∧
      (SliceExt.rev sub).len = 4 - 1 :=
  C2_range_mapping [1, 2, 3, 4, 5, 6, 7] 1 4 (by decide) (by decide)

/-- C3 counterexample: the derived comparison on `RevSlice` delegates to the
inner slice and hence orders by the *physical* sequence.  For the views
with physical contents `[0, 1]` and `[1, 0]` the code compares them `lt`,
while the lexicographic order of their logical sequences (`[1, 0]` vs
`[0, 1]`) is `gt` — so the claim that ordering follows the logical
sequence is false at this input. -/
theorem C3_counterexample :
    RevSlice.cmp compare (⟨[0, 1]⟩ : RevSlice Nat) ⟨[1, 0]⟩ = Ordering.lt ∧
    sliceCompare compare (RevSlice.logical (⟨[0, 1]⟩ : RevSlice Nat))
      (RevSlice.logical (⟨[1, 0]⟩ : RevSlice Nat)) = Ordering.gt := by
  constructor <;> rfl

/-- C3 amended: equality of two reversed views holds exactly when their
logical element sequences are elementwise equal, but the derived
lexicographic ordering is that of the underlying *physical* sequences
(equivalently, of the reversals of the logical sequences), not of the
logical sequences themselves. -/
theorem C3_eq_ord_amended {T : Type} [DecidableEq T] (cmp : T → T → Ordering)
    (r s : RevSlice T) :
    (RevSlice.beq r s = true ↔ r.logical = s.logical) ∧
    RevSlice.cmp cmp r s = sliceCompare cmp r.logical.reverse s.logical.reverse := by
  constructor
  · simp [RevSlice.beq, RevSlice.logical, List.reverse_inj]
  · simp [RevSlice.cmp, RevSlice.logical, List.reverse_reverse]

/-- C4: scalar indexing of the reversed view fails exactly when `i ≥ n`;
ranged indexing with `[start, end)` fails exactly when `start > end` or
`end > n`; `split_at mid` fails exactly when `mid > n`; and `split_at 0`
and `split_at n` both succeed, producing one empty and one full-length
half. -/
theorem C4_bounds_failures {T : Type} (S : List T) (i s e mid : Nat) :
    ((SliceExt.rev S).index i = none ↔ S.length ≤ i) ∧
    ((SliceExt.rev S).indexRange s e = none ↔ (e < s ∨ S.length < e)) ∧
    ((SliceExt.rev S).split_at mid = none ↔ S.length < mid) ∧
    (∃ p, (SliceExt.rev S).split_at 0 = some p ∧ p.1.len = 0 ∧ p.2.len = S.length) ∧
    (∃ q, (SliceExt.rev S).split_at S.length = some q ∧
      q.1.len = S.length ∧ q.2.len = 0) := by
  have hlen : RevSlice.len (SliceExt.rev S) = S.length := rfl
  refine ⟨?_, ?_, ?_, ?_, ?_⟩
  · rw [RevSlice.index_eq_none_iff, hlen]
  · rw [RevSlice.indexRange_eq_none_iff, hlen]
  · rw [RevSlice.split_at_eq_none_iff, hlen]
  · refine ⟨(⟨S.drop S.length⟩, ⟨S.take S.length⟩), ?_, ?_, ?_⟩
    · simp [RevSlice.split_at, RevSlice.flip_fencepost,
        usizeSub_eq_some (Nat.zero_le _), SliceExt.rev, RevSlice.len_eq]
    · simp [RevSlice.len_eq]
    · simp [RevSlice.len_eq]
  · refine ⟨(⟨S.drop 0⟩, ⟨S.take 0⟩), ?_, ?_, ?_⟩
    · simp [RevSlice.split_at, RevSlice.flip_fencepost, SliceExt.rev, RevSlice.len_eq,
        usizeSub_eq_some (Nat.le_refl S.length), Nat.sub_self]
    · simp [RevSlice.len_eq]
    · simp [RevSlice.len_eq]

/-- C5: for `mid ≤ n`, `split_at mid` returns `(A, B)` where `A` is the
reversed view over logical range `[0, mid)`, `B` the reversed view over
logical range `[mid, n)`, and `A`'s logical elements followed by `B`'s
equal the full logical sequence. -/
theorem C5_split_at_correct {T : Type} (r : RevSlice T) (mid : Nat) (h : mid ≤ r.len) :
    ∃ A B, r.split_at mid = some (A, B) ∧
      A.logical = r.logical.take mid ∧
      B.logical = r.logical.drop mid ∧
      A.logical ++ B.logical = r.logical := by
  have hlen : r.len = r.phys.length := rfl
  refine ⟨⟨r.phys.drop (r.len - mid)⟩, ⟨r.phys.take (r.len - mid)⟩, ?_, ?_, ?_, ?_⟩
  · simp [RevSlice.split_at, RevSlice.flip_fencepost, usizeSub_eq_some h,
      show r.len - mid ≤ r.phys.length by omega]
  · simp only [RevSlice.logical, List.reverse_drop]
    congr 1
    omega
  · simp only [RevSlice.logical, List.reverse_take]
    congr 1
    omega
  · simp only [RevSlice.logical, List.reverse_drop, List.reverse_take]
    have h1 : r.phys.length - (r.len - mid) = mid := by omega
    rw [h1, List.take_append_drop]

/-- Witness for C5 on a concrete input. -/
theorem C5_split_at_correct_witness :
    ∃ A B, (SliceExt.rev ([1, 2, 3, 4, 5, 6, 7] : List Nat)).split_at 3 = some (A, B) ∧
      A.logical = (SliceExt.rev ([1, 2, 3, 4, 5, 6, 7] : List Nat)).logical.take 3 ∧
      B.logical = (SliceExt.rev ([1, 2, 3, 4, 5, 6, 7] : List Nat)).logical.drop 3 ∧
      A.logical ++ B.logical = (SliceExt.rev ([1, 2, 3, 4, 5, 6, 7] : List Nat)).logical :=
  C5_split_at_correct (SliceExt.rev [1, 2, 3, 4, 5, 6, 7]) 3 (by decide)

/-- C6: reversing twice is the identity — the un-reverse accessor
`RevSlice::rev` applied to the reversed view of `S` yields exactly `S`
(the same backing list, by definitional identity rather than a recomputed
reversal), and the reverse of the logical sequence is again `S`. -/
theorem C6_round_trip {T : Type} (S : List T) :
    (SliceExt.rev S).rev = S ∧ ((SliceExt.rev S).logical).reverse = S :=
  ⟨rfl, List.reverse_reverse S⟩

/-- C7: iterating the reversed view yields exactly the elements of `S` in
physical reverse order, with exactly `n` elements, and a fresh call to the
iteration operation yields the same sequence again. -/
theorem C7_iteration_equivalence {T : Type} (S : List T) :
    (SliceExt.rev S).iter = S.reverse ∧
    (SliceExt.rev S).iter.length = S.length ∧
    (SliceExt.rev S).iter = (SliceExt.rev S).iter :=
  ⟨rfl, List.length_reverse S, rfl⟩

/-- C8: `split_first` returns the element at logical index 0 paired with
the view over logical `[1, n)`, `split_last` returns the element at
logical index `n-1` paired with the view over logical `[0, n-1)`, and
both report absence exactly when `n = 0`. -/
theorem C8_split_first_last {T : Type} (r : RevSlice T) :
    (r.split_first = none ↔ r.len = 0) ∧
    (r.split_last = none ↔ r.len = 0) ∧
    (∀ x rest, r.split_first = some (x, rest) →
      r.index 0 = some x ∧ rest.logical = r.logical.drop 1) ∧
    (∀ y rest, r.split_last = some (y, rest) →
      r.index (r.len - 1) = some y ∧ rest.logical = r.logical.take (r.len - 1)) := by
  obtain ⟨l⟩ := r
  refine ⟨?_, ?_, ?_, ?_⟩
  · cases l with
    | nil => simp [RevSlice.split_first, RevSlice.len_eq]
    | cons a tl =>
      have hL : (a :: tl).getLast? = some ((a :: tl).getLast (by simp)) :=
        List.getLast?_eq_getLast _ (by simp)
      simp [RevSlice.split_first, hL, RevSlice.len_eq]
  · cases l with
    | nil => simp [RevSlice.split_last, RevSlice.len_eq]
    | cons a tl => simp [RevSlice.split_last, RevSlice.len_eq]
  · intro x rest h
    cases l with
    | nil => simp [RevSlice.split_first] at h
    | cons a tl =>
      have hne : (a :: tl) ≠ [] := by simp
      have hL : (a :: tl).getLast? = some ((a :: tl).getLast hne) :=
        List.getLast?_eq_getLast _ hne
      simp only [RevSlice.split_first, hL] at h
      obtain ⟨hx, hrest⟩ := Prod.mk.injEq .. ▸ Option.some.injEq .. ▸ h
      constructor
      · rw [RevSlice.index, RevSlice.flip_index,
          usizeSub_eq_some (show 0 + 1 ≤ RevSlice.len ⟨a :: tl⟩ by
            simp [RevSlice.len_eq])]
        show (a :: tl)[RevSlice.len (⟨a :: tl⟩ : RevSlice T) - (0 + 1)]? = some x
        have hidx : RevSlice.len (⟨a :: tl⟩ : RevSlice T) - (0 + 1) = (a :: tl).length - 1 := by
          simp [RevSlice.len_eq]
        rw [hidx, ← List.getLast?_eq_getElem?, hL, hx]
      · rw [← hrest]
        simp only [RevSlice.logical, List.dropLast_eq_take, List.reverse_take]
        congr 1
        simp [List.length_cons]
  · intro y rest h
    cases l with
    | nil => simp [RevSlice.split_last] at h
    | cons a tl =>
      simp only [RevSlice.split_last] at h
      obtain ⟨hy, hrest⟩ := Prod.mk.injEq .. ▸ Option.some.injEq .. ▸ h
      constructor
      · rw [RevSlice.index, RevSlice.flip_index]
        have h1 : RevSlice.len (⟨a :: tl⟩ : RevSlice T) - 1 + 1 =
            RevSlice.len (⟨a :: tl⟩ : RevSlice T) := by
          simp [RevSlice.len_eq]
        rw [h1, usizeSub_eq_some (Nat.le_refl _), Nat.sub_self]
        show (a :: tl)[0]? = some y
        simp [hy]
      · rw [← hrest]
        simp only [RevSlice.logical, RevSlice.len_eq, List.reverse_cons, List.length_cons]
        have h2 : tl.length + 1 - 1 = tl.reverse.length := by simp
        rw [h2, List.take_left]

/-- Witness for C8 on a concrete input: applying the `split_first` clause
at physical contents `[4, 5, 6]` (logical sequence `[6, 5, 4]`). -/
theorem C8_split_first_last_witness :
    RevSlice.index (⟨[4, 5, 6]⟩ : RevSlice Nat) 0 = some 6 ∧
    RevSlice.logical (⟨[4, 5]⟩ : RevSlice Nat) =
      (RevSlice.logical (⟨[4, 5, 6]⟩ : RevSlice Nat)).drop 1 :=
  (C8_split_first_last (⟨[4, 5, 6]⟩ : RevSlice Nat)).2.2.1 6 ⟨[4, 5]⟩ (by decide)

/-- C9: writing `v` through the mutable reversed view at logical index
`i < n` makes the element at physical index `n-1-i` equal to `v`, leaves
every other physical element unchanged, and a write to the underlying
sequence at physical index `n-1-i` is visible at logical index `i` of the
reversed view. -/
theorem C9_mutation_visibility {T : Type} (S : List T) (i : Nat) (v : T)
    (h : i < S.length) :
    ∃ r' : RevSlice T, (SliceExt.rev S).writeAt i v = some r' ∧
      r'.rev = S.set (S.length - 1 - i) v ∧
      r'.rev[S.length - 1 - i]? = some v ∧
      (∀ j, j ≠ S.length - 1 - i → r'.rev[j]? = S[j]?) ∧
      (SliceExt.rev (S.set (S.length - 1 - i) v)).index i = some v := by
  refine ⟨⟨S.set (S.length - 1 - i) v⟩, ?_, rfl, ?_, ?_, ?_⟩
  · simp [RevSlice.writeAt, RevSlice.flip_index, SliceExt.rev, RevSlice.len_eq,
      usizeSub_eq_some (show i + 1 ≤ S.length from h),
      show S.length - (i + 1) = S.length - 1 - i by omega,
      show S.length - 1 - i < S.length by omega]
  · exact List.getElem?_set_eq_of_lt v (by omega)
  · intro j hj
    exact List.getElem?_set_ne (Ne.symm hj)
  · simp [RevSlice.index, RevSlice.flip_index, SliceExt.rev, RevSlice.len_eq,
      usizeSub_eq_some (show i + 1 ≤ S.length from h),
      show S.length - (i + 1) = S.length - 1 - i by omega,
      List.getElem?_set_eq_of_lt v (show S.length - 1 - i < S.length by omega)]

/-- Witness for C9 on a concrete input. -/
theorem C9_mutation_visibility_witness :
    ∃ r' : RevSlice Nat, (SliceExt.rev ([1, 2, 3, 4, 5, 6, 7] : List Nat)).writeAt 6 10 = some r' ∧
      r'.rev = [1, 2, 3, 4, 5, 6, 7].set (7 - 1 - 6) 10 ∧
      r'.rev[7 - 1 - 6]? = some 10 ∧
      (∀ j, j ≠ 7 - 1 - 6 → r'.rev[j]? = [1, 2, 3, 4, 5, 6, 7][j]?) ∧
      (SliceExt.rev (([1, 2, 3, 4, 5, 6, 7] : List Nat).set (7 - 1 - 6) 10)).index 6 = some 10 :=
  C9_mutation_visibility [1, 2, 3, 4, 5, 6, 7] 6 10 (by decide)

/-- C10: whenever the caller-supplied coordinates satisfy the
preconditions, the flip arithmetic succeeds (no subtraction underflows)
and the computed physical coordinates satisfy the underlying slice's own
bounds requirements, so the delegated slice operation cannot fail. -/
theorem C10_flip_safety {T : Type} (r : RevSlice T) (i s e mid : Nat) :
    (i < r.len → ∃ k, r.flip_index i = some k ∧ k < r.len) ∧
    (s ≤ e → e ≤ r.len →
      ∃ a b, r.flip_range s e = some (a, b) ∧ a ≤ b ∧ b ≤ r.len ∧
        (r.indexRange s e).isSome = true) ∧
    (mid ≤ r.len →
      ∃ m, r.flip_fencepost mid = some m ∧ m ≤ r.len ∧
        (r.split_at mid).isSome = true) ∧
    (i < r.len → (r.index i).isSome = true) := by
  refine ⟨?_, ?_, ?_, ?_⟩
  · intro h
    exact ⟨r.len - (i + 1),
      by rw [RevSlice.flip_index, usizeSub_eq_some (by omega)], by omega⟩
  · intro hse hen
    refine ⟨r.len - e, r.len - s, ?_, by omega, by omega, ?_⟩
    · rw [RevSlice.flip_range, RevSlice.flip_fencepost, RevSlice.flip_fencepost,
        usizeSub_eq_some hen, usizeSub_eq_some (le_trans hse hen)]
    · cases ho : r.indexRange s e with
      | none => exact absurd ((RevSlice.indexRange_eq_none_iff r s e).mp ho) (by omega)
      | some val => rfl
  · intro hm
    refine ⟨r.len - mid, by rw [RevSlice.flip_fencepost, usizeSub_eq_some hm], by omega, ?_⟩
    cases ho : r.split_at mid with
    | none => exact absurd ((RevSlice.split_at_eq_none_iff r mid).mp ho) (by omega)
    | some val => rfl
  · intro h
    cases ho : r.index i with
    | none => exact absurd ((RevSlice.index_eq_none_iff r i).mp ho) (by omega)
    | some val => rfl

/-- Witness for C10 on a concrete input, exercising all four clauses. -/
theorem C10_flip_safety_witness :
    (∃ k, RevSlice.flip_index (⟨[1, 2, 3]⟩ : RevSlice Nat) 1 = some k ∧
      k < RevSlice.len (⟨[1, 2, 3]⟩ : RevSlice Nat)) ∧
    (∃ a b, RevSlice.flip_range (⟨[1, 2, 3]⟩ : RevSlice Nat) 1 2 = some (a, b) ∧ a ≤ b ∧
      b ≤ RevSlice.len (⟨[1, 2, 3]⟩ : RevSlice Nat) ∧
      (RevSlice.indexRange (⟨[1, 2, 3]⟩ : RevSlice Nat) 1 2).isSome = true) ∧
    (∃ m, RevSlice.flip_fencepost (⟨[1, 2, 3]⟩ : RevSlice Nat) 2 = some m ∧
      m ≤ RevSlice.len (⟨[1, 2, 3]⟩ : RevSlice Nat) ∧
      (RevSlice.split_at (⟨[1, 2, 3]⟩ : RevSlice Nat) 2).isSome = true) ∧
    (RevSlice.index (⟨[1, 2, 3]⟩ : RevSlice Nat) 1).isSome = true :=
  ⟨(C10_flip_safety (⟨[1, 2, 3]⟩ : RevSlice Nat) 1 1 2 2).1 (by decide),
   (C10_flip_safety (⟨[1, 2, 3]⟩ : RevSlice Nat) 1 1 2 2).2.1 (by decide) (by decide),
   (C10_flip_safety (⟨[1, 2, 3]⟩ : RevSlice Nat) 1 1 2 2).2.2.1 (by decide),
   (C10_flip_safety (⟨[1, 2, 3]⟩ : RevSlice Nat) 1 1 2 2).2.2.2 (by decide)⟩
